import Mathlib

/-!
Inno-Setup-Action: a shallow embedding of `src/index.js`.

The action is one `async function run()` whose body performs file-system,
network and child-process calls in sequence.  The embedding makes every
external answer a field of an environment record `Env` and makes every
external call an `Event` appended to a trace, so that "what was done, in which
order" and "which message was reported" become statements about a list.

JavaScript strings are modelled by Lean strings; the only characters the code
inspects (quotes, `$`, line breaks, white space) lie in the basic plane, so the
difference between code units and code points is not observable here.
-/

namespace InnoSetupAction

/-! ## JavaScript values -/

/-- An error object: `message` is always present, `stdout` and `stderr` are
present on the errors with which the promisified `exec` and `execFile`
reject (the output the child process wrote before it failed). -/
structure JsError where
  message : String
  stdout : Option String
  stderr : Option String
deriving DecidableEq, Repr

/-- The value `new Error(msg)`. -/
def JsError.ofMessage (msg : String) : JsError := ⟨msg, none, none⟩

/-- Truthiness of a value that is `undefined` or a string. -/
def truthy : Option String → Bool
  | some s => s != ""
  | none => false

/-- The expression `a || b` where `a` is `undefined` or a string and `b` is a string. -/
def orElse (a : Option String) (b : String) : String :=
  match a with
  | some s => if s = "" then b else s
  | none => b

/-- The resolved value of a promisified `exec` or `execFile`. -/
structure ProcOutput where
  stdout : String
  stderr : String
deriving DecidableEq, Repr

/-- How a stage of `run` ends.  `ok` is a resolved promise; `error` is a
rejected promise or a `throw` that an enclosing `try` can catch; `crashed` is
an exception thrown inside an event callback, outside every promise and every
`try`: the awaited promise never settles and the process dies on the spot. -/
inductive Outcome (α : Type) where
  | ok (value : α)
  | error (err : JsError)
  | crashed (err : JsError)
deriving DecidableEq, Repr

/-- The external calls and log lines the action can perform, and the death
of the process on an exception nobody catches. -/
inductive Event where
  | info (msg : String)
  | warning (msg : String)
  | fsAccess (path : String)
  | fsReaddir (path : String)
  | httpsGet (url : String)
  | createWriteStream (dest : String)
  | exec (command : String)
  | execFile (file : String) (args : List String)
  | consoleLog (text : String)
  | consoleError (text : String)
  | setFailed (msg : String)
  | processExit (code : Nat)
  | uncaughtException (msg : String)
deriving DecidableEq, Repr

/-! ## Line 45: `options.map((str) => str.replace(/(["'])/g, "$1"))` -/

/-- The double-quote character. -/
def dquote : Char := Char.ofNat 34

/-- The single-quote character. -/
def squote : Char := Char.ofNat 39

/-- The character class `["']` of the regular expression. -/
def isQuote (c : Char) : Bool := c == dquote || c == squote

/-- Expansion of a replacement template for one match of `/(["'])/`, as the
language defines it for `String.prototype.replace`: `$$` is a dollar sign,
`$&` the matched text, `$1` (also written `$01`) the first capture group,
everything else is copied.  The expression has a single group and no named
group, and the template of line 45 does not use the before-match and
after-match forms, which are left out. -/
def getSubstitution (matched capture1 : List Char) : List Char → List Char
  | '$' :: '$' :: rest => '$' :: getSubstitution matched capture1 rest
  | '$' :: '&' :: rest => matched ++ getSubstitution matched capture1 rest
  | '$' :: '1' :: rest => capture1 ++ getSubstitution matched capture1 rest
  | '$' :: '0' :: '1' :: rest => capture1 ++ getSubstitution matched capture1 rest
  | c :: rest => c :: getSubstitution matched capture1 rest
  | [] => []

/-- The call `str.replace(/(["'])/g, replacement)` on a list of characters:
every character of the class is a match whose first group is itself. -/
def replaceQuotes (replacement : List Char) : List Char → List Char
  | [] => []
  | c :: cs =>
    (if isQuote c then getSubstitution [c] [c] replacement else [c])
      ++ replaceQuotes replacement cs

/-- The arrow function of line 45, with the replacement string `"$1"`. -/
def escapeOption (str : String) : String :=
  String.mk (replaceQuotes "$1".toList str.toList)

/-- The constant `escapedOptions` of line 45. -/
def escapedOptions (options : List String) : List String :=
  options.map escapeOption

/-- What the specification describes: every double quote and every single
quote is written twice, every other character once. -/
def doubleQuotes : List Char → List Char
  | [] => []
  | c :: cs => (if isQuote c then [c, c] else [c]) ++ doubleQuotes cs

/-! ## Lines 47-78: `downloadFile` -/

/-- The part of an HTTP response the code looks at. -/
structure HttpResponse where
  statusCode : Nat
  location : Option String
deriving DecidableEq, Repr

/-- What `https.get` produces: a response, an `error` event on the request,
or an exception thrown by the call itself, which is what the library does
when the address is not an absolute `https:` URL (a relative path, or another
protocol). -/
inductive HttpOutcome where
  | response (res : HttpResponse)
  | failure (err : JsError)
  | thrown (err : JsError)
deriving DecidableEq, Repr

/-- The constant `maxRedirects`. -/
def maxRedirects : Nat := 5

/-- The redirect test of lines 57-61. -/
def isRedirect (res : HttpResponse) : Bool :=
  decide (res.statusCode ≥ 300) && decide (res.statusCode < 400) && truthy res.location

/-- The inner function `getUrl(u, redirects)`.  `http n u` is the outcome of
the request issued for `u` after `n` redirects; `pipe dest` is the outcome of
streaming the body into `dest` (`finish`, or an `error` event on the file).

The first call, `getUrl(url, 0)` of line 76, runs inside the promise executor,
where an exception thrown by `https.get` rejects the promise.  Every later
call is the one of line 62, made from the response callback of lines 56-73:
nothing catches an exception thrown there, so it ends the process. -/
def getUrl (http : Nat → String → HttpOutcome) (pipe : String → Except JsError Unit)
    (dest : String) (u : String) (redirects : Nat) : List Event × Outcome Unit :=
  if redirects > maxRedirects then
    ([], .error (JsError.ofMessage "Too many redirects while downloading installer"))
  else
    match http redirects u with
    | .thrown err =>
      if redirects = 0 then ([.httpsGet u], .error err) else ([.httpsGet u], .crashed err)
    | .failure err => ([.httpsGet u], .error err)
    | .response res =>
      if isRedirect res then
        let next := getUrl http pipe dest (res.location.getD "") (redirects + 1)
        (.httpsGet u :: next.1, next.2)
      else if res.statusCode ≠ 200 then
        ([.httpsGet u],
          .error (JsError.ofMessage ("Download failed with status " ++ toString res.statusCode)))
      else
        match pipe dest with
        | .ok _ => ([.httpsGet u, .createWriteStream dest], .ok ())
        | .error err => ([.httpsGet u, .createWriteStream dest], .error err)
termination_by maxRedirects + 1 - redirects
decreasing_by
  simp only [maxRedirects] at *
  omega

/-- The function `downloadFile(url, dest)`: `getUrl(url, 0)`. -/
def downloadFile (http : Nat → String → HttpOutcome) (pipe : String → Except JsError Unit)
    (url dest : String) : List Event × Outcome Unit :=
  getUrl http pipe dest url 0

/-! ## Lines 80-114: `findIscc` -/

/-- The three candidates pushed for one program-files variable (lines 84-88
and 89-93); nothing is pushed when the variable is undefined or empty.
`join` stands for `path.join` of the Node library. -/
def candidatesFor (join : List String → String) : Option String → List String
  | none => []
  | some dir =>
    if dir = "" then []
    else
      [join [dir, "Inno Setup 6", "iscc.exe"],
       join [dir, "Inno Setup 7", "iscc.exe"],
       join [dir, "Inno Setup", "iscc.exe"]]

/-- The array `candidates` after lines 81-93. -/
def candidates (join : List String → String) (pf86 pf : Option String) : List String :=
  candidatesFor join pf86 ++ candidatesFor join pf

/-- The loop of lines 95-102: `fs.access` on each candidate in turn, returning
the first one on which it succeeds. -/
def scanCandidates (access : String → Bool) : List String → List Event × Option String
  | [] => ([], none)
  | p :: ps =>
    if access p then ([.fsAccess p], some p)
    else
      let later := scanCandidates access ps
      (.fsAccess p :: later.1, later.2)

/-- The call `stdout.split(/\r?\n/)` on characters. -/
def splitLines : List Char → List (List Char)
  | [] => [[]]
  | '\r' :: '\n' :: rest => [] :: splitLines rest
  | '\n' :: rest => [] :: splitLines rest
  | c :: rest =>
    match splitLines rest with
    | [] => [[c]]
    | line :: lines => (c :: line) :: lines

/-- White space and line terminators, the characters `trim()` removes. -/
def isJsWhitespace (c : Char) : Bool :=
  let n := c.toNat
  n == 9 || n == 10 || n == 11 || n == 12 || n == 13 || n == 32 || n == 160 ||
  n == 0x1680 || (decide (0x2000 ≤ n) && decide (n ≤ 0x200A)) || n == 0x2028 ||
  n == 0x2029 || n == 0x202F || n == 0x205F || n == 0x3000 || n == 0xFEFF

/-- The method `trim()`. -/
def jsTrim (s : List Char) : List Char :=
  ((s.dropWhile isJsWhitespace).reverse.dropWhile isJsWhitespace).reverse

/-- Lines 107-108: the first non-empty line of the output, trimmed. -/
def firstLine (stdout : String) : Option String :=
  match (splitLines stdout.toList).find? (fun line => line != []) with
  | some line => some (String.mk (jsTrim line))
  | none => none

/-- The command of line 106. -/
def whereCommand : String := "where iscc.exe"

/-- The function `findIscc()`.  `access` answers `fs.access` at the time of the
scan and `exec` is the promisified `child_process.exec`.  The result `none`
is the `null` of line 113. -/
def findIscc (join : List String → String) (pf86 pf : Option String)
    (access : String → Bool) (exec : String → Except JsError ProcOutput) :
    List Event × Option String :=
  let scanned := scanCandidates access (candidates join pf86 pf)
  match scanned.2 with
  | some p => (scanned.1, some p)
  | none =>
    match exec whereCommand with
    | .ok out => (scanned.1 ++ [.exec whereCommand], firstLine out.stdout)
    | .error _ => (scanned.1 ++ [.exec whereCommand], none)

/-! ## Lines 13-20: inputs, and lines 22-183: `run` -/

/-- Everything outside the program: the process environment, the action
inputs as `core.getInput` and `core.getMultilineInput` return them, and the
answers of the file system, the network and the child processes. -/
structure Env where
  platform : String
  workspacePath : Option String
  programFilesX86 : Option String
  programFiles : Option String
  options : List String
  scriptInput : String
  installLatestInput : String
  installerUrlInput : String
  tmpdir : String
  now : Nat
  join : List String → String
  access : String → Bool
  readdir : String → Except JsError (List String)
  http : Nat → String → HttpOutcome
  pipe : String → Except JsError Unit
  exec : String → Except JsError ProcOutput
  execFile : String → List String → Except JsError ProcOutput
  accessAfterInstall : String → Bool

/-- The method `toLowerCase()`, on the letters `A` to `Z`.  No character
outside ASCII lower-cases to a letter of `true`, so the comparison of
line 17 is the same as with the full Unicode mapping. -/
def toLowerCase (s : String) : String :=
  String.mk (s.toList.map Char.toLower)

/-- Lines 16-17. -/
def installLatest (input : String) : Bool :=
  toLowerCase (orElse (some input) "false") == "true"

/-- Lines 18-20. -/
def installerUrl (input : String) : String :=
  orElse (some input) "https://jrsoftware.org/download.php/is.exe?site=1"

/-- The command of lines 138 and 149. -/
def chocoCommand : String := "choco install innosetup -y"

/-- The arguments of lines 126-131. -/
def silentFlags : List String := ["/VERYSILENT", "/SUPPRESSMSGBOXES", "/NORESTART", "/SP-"]

/-- The path `tmpExe` of lines 118-121. -/
def tmpExe (e : Env) : String :=
  e.join [e.tmpdir, "inno-setup-installer-" ++ toString e.now ++ ".exe"]

/-- Lines 136-144, and again lines 147-155: the package-manager install,
whose failure is rethrown with the prefix `Failed to install Inno Setup: `. -/
def chocoInstall (e : Env) : List Event × Outcome Unit :=
  match e.exec chocoCommand with
  | .ok _ =>
    ([.info "Installing Inno Setup via choco…", .exec chocoCommand, .info "Installed."], .ok ())
  | .error err =>
    ([.info "Installing Inno Setup via choco…", .exec chocoCommand],
      .error (JsError.ofMessage ("Failed to install Inno Setup: " ++ orElse err.stderr err.message)))

/-- Lines 123-131: the body of the `try` of the install-latest branch. -/
def downloadAndInstall (e : Env) : List Event × Outcome Unit :=
  let started := Event.info ("Downloading Inno Setup from " ++ installerUrl e.installerUrlInput ++ "…")
  let download := downloadFile e.http e.pipe (installerUrl e.installerUrlInput) (tmpExe e)
  match download.2 with
  | .crashed err => (started :: download.1, .crashed err)
  | .error err => (started :: download.1, .error err)
  | .ok _ =>
    let ran := [Event.info ("Running installer silently: " ++ tmpExe e),
                Event.execFile (tmpExe e) silentFlags]
    match e.execFile (tmpExe e) silentFlags with
    | .ok _ => (started :: download.1 ++ ran, .ok ())
    | .error err => (started :: download.1 ++ ran, .error err)

/-- Lines 117-156: the install stage. -/
def install (e : Env) : List Event × Outcome Unit :=
  if installLatest e.installLatestInput then
    let attempt := downloadAndInstall e
    match attempt.2 with
    | .crashed err => (attempt.1, .crashed err)
    | .ok _ => (attempt.1, .ok ())
    | .error err =>
      let fallback := chocoInstall e
      (attempt.1 ++
        Event.warning ("Download/install failed: " ++ err.message ++ ". Falling back to Chocolatey.")
          :: fallback.1,
        fallback.2)
  else chocoInstall e

/-- Lines 164 and 168-171: the argument array `[scriptPath, ...escapedOptions]`. -/
def compilerArgs (e : Env) (workspace : String) : List String :=
  e.join [workspace, e.scriptInput] :: escapedOptions e.options

/-- Lines 164-176: the compiler invocation and the relay of its output. -/
def compile (e : Env) (workspace isccPath : String) : List Event × Outcome Unit :=
  let args := compilerArgs e workspace
  let called := [Event.info "Running iscc…", Event.execFile isccPath args]
  match e.execFile isccPath args with
  | .ok out =>
    (called ++ (if out.stdout = "" then [] else [Event.consoleLog out.stdout])
       ++ (if out.stderr = "" then [] else [Event.consoleError out.stderr]), .ok ())
  | .error err =>
    (called, .error (JsError.ofMessage ("Execution failed: " ++ orElse err.stderr err.message)))

/-- The discovery of the compiler as `run` performs it at line 159. -/
def located (e : Env) : List Event × Option String :=
  findIscc e.join e.programFilesX86 e.programFiles e.accessAfterInstall e.exec

/-- The fixed line of line 178. -/
def successLine : String := "Inno Setup script compiled successfully."

/-- Lines 158-178: discovery, compilation and the success line. -/
def locateAndCompile (e : Env) (workspace : String) : List Event × Outcome Unit :=
  let found := located e
  if truthy found.2 then
    let compiled := compile e workspace (found.2.getD "")
    match compiled.2 with
    | .ok _ =>
      (found.1 ++ compiled.1 ++ [.consoleLog successLine], .ok ())
    | .error err => (found.1 ++ compiled.1, .error err)
    | .crashed err => (found.1 ++ compiled.1, .crashed err)
  else (found.1, .error (JsError.ofMessage "Could not locate iscc.exe after installation."))

/-- Lines 24-178: the body of the outer `try`. -/
def body (e : Env) : List Event × Outcome Unit :=
  if e.platform ≠ "win32" then
    ([], .error (JsError.ofMessage "This action is only supported on Windows!"))
  else if truthy e.workspacePath = false then
    ([], .error (JsError.ofMessage "GITHUB_WORKSPACE is not defined."))
  else
    let workspace := e.workspacePath.getD ""
    if e.access workspace = false then
      ([.fsAccess workspace], .error (JsError.ofMessage "Workspace path does not exist."))
    else
      match e.readdir workspace with
      | .error err => ([.fsAccess workspace, .fsReaddir workspace], .error err)
      | .ok files =>
        if files.length = 0 then
          ([.fsAccess workspace, .fsReaddir workspace],
            .error (JsError.ofMessage
              "The repository was not cloned. Please specify the actions/checkout action before this step."))
        else
          let installed := install e
          match installed.2 with
          | .crashed err =>
            (.fsAccess workspace :: .fsReaddir workspace :: installed.1, .crashed err)
          | .error err => (.fsAccess workspace :: .fsReaddir workspace :: installed.1, .error err)
          | .ok _ =>
            let rest := locateAndCompile e workspace
            (.fsAccess workspace :: .fsReaddir workspace :: installed.1 ++ rest.1, rest.2)

/-- The function `run()`: the body, and on a thrown error lines 179-182.  An
exception that ends the process is reported by the runtime and reaches
neither line 180 nor line 181. -/
def run (e : Env) : List Event :=
  let done := body e
  match done.2 with
  | .ok _ => done.1
  | .error error =>
    done.1 ++ [.setFailed (orElse (some error.message) "An unknown error occurred."),
               .processExit 1]
  | .crashed err => done.1 ++ [.uncaughtException err.message]

/-- The checks of lines 24-43 all pass: the platform is `win32`, the
workspace variable is a non-empty string, the directory is accessible and
`readdir` lists at least one entry. -/
def validated (e : Env) : Bool :=
  e.platform == "win32" && truthy e.workspacePath && e.access (e.workspacePath.getD "") &&
    (match e.readdir (e.workspacePath.getD "") with
     | .ok files => files.length != 0
     | .error _ => false)

/-- The status codes 200 to 299. -/
def inSuccessRange (status : Nat) : Bool := decide (200 ≤ status) && decide (status < 300)

/-- The address requested after `k` redirects, when the download gets that
far: the given address for `k = 0`, and afterwards the `location` of the
redirect that answered the previous request. -/
def requestedUrl (http : Nat → String → HttpOutcome) (url : String) : Nat → Option String
  | 0 => some url
  | k + 1 =>
    match requestedUrl http url k with
    | none => none
    | some u =>
      match http k u with
      | .response res => if isRedirect res then some (res.location.getD "") else none
      | .failure _ => none
      | .thrown _ => none

/-- The events of the download path: a request and the opening of the file. -/
def isDownloadEvent : Event → Bool
  | .httpsGet _ => true
  | .createWriteStream _ => true
  | _ => false

/-- The events that write compiler output to the log. -/
def isConsoleEvent : Event → Bool
  | .consoleLog _ => true
  | .consoleError _ => true
  | _ => false

/-- A request event. -/
def isRequest : Event → Bool
  | .httpsGet _ => true
  | _ => false

/-- The events of a run up to and including the discovery of the compiler,
when validation and installation succeed. -/
def beforeCompile (e : Env) : List Event :=
  .fsAccess (e.workspacePath.getD "") :: .fsReaddir (e.workspacePath.getD "")
    :: (install e).1 ++ (located e).1

/-- An environment for examples: a Windows runner with one file in the
workspace, both program-files variables set, the compiler installed under
the first candidate directory, and every external call succeeding. -/
def sampleEnv : Env where
  platform := "win32"
  workspacePath := some "D:/a/repo"
  programFilesX86 := some "C:/Program Files (x86)"
  programFiles := some "C:/Program Files"
  options := ["/DMyVer=a\"b", "/Q"]
  scriptInput := "setup.iss"
  installLatestInput := ""
  installerUrlInput := ""
  tmpdir := "C:/Temp"
  now := 1700000000000
  join := fun parts => String.intercalate "/" parts
  access := fun _ => true
  readdir := fun _ => .ok ["setup.iss"]
  http := fun _ _ => .response ⟨200, none⟩
  pipe := fun _ => .ok ()
  exec := fun _ => .ok ⟨"", ""⟩
  execFile := fun _ _ => .ok ⟨"Done", ""⟩
  accessAfterInstall := fun _ => true

/-- The path at which `sampleEnv` finds the compiler. -/
def sampleIscc : String := "C:/Program Files (x86)/Inno Setup 6/iscc.exe"

/-- A Linux runner on which nothing else is set up. -/
def linuxEnv : Env :=
  { sampleEnv with platform := "linux", workspacePath := none, access := fun _ => false }

/-- A Windows runner whose workspace directory does not exist. -/
def missingWorkspaceEnv : Env := { sampleEnv with access := fun _ => false }

/-- A Windows runner whose workspace directory lists no entry. -/
def emptyWorkspaceEnv : Env := { sampleEnv with readdir := fun _ => .ok [] }

/-- The compiler exits with code 1 after writing `Compiling` to its standard
output and `Error on line 5` to its error stream. -/
def compilerFailureEnv : Env :=
  { sampleEnv with
    execFile := fun _ _ =>
      .error ⟨"Command failed: iscc.exe", some "Compiling", some "Error on line 5"⟩ }

/-- The compiler exits with code 0 after writing to both streams. -/
def compilerWarningEnv : Env :=
  { sampleEnv with execFile := fun _ _ => .ok ⟨"Done", "Warning: unused"⟩ }

/-- A server that redirects the first two requests to a mirror and then
answers 200. -/
def redirectTwice : Nat → String → HttpOutcome :=
  fun n _ => if n < 2 then .response ⟨302, some "https://mirror/is.exe"⟩ else .response ⟨200, none⟩

/-- A server that answers every request with 204, a status of the 200 range
other than 200. -/
def noContent : Nat → String → HttpOutcome := fun _ _ => .response ⟨204, none⟩

/-- Whether the first list of characters starts the second. -/
def startsWith : List Char → List Char → Bool
  | [], _ => true
  | _ :: _, [] => false
  | a :: as, b :: bs => a == b && startsWith as bs

/-- A server that answers every request with a 302 whose `Location` is the
relative path `/files/is.exe`; `https.get` throws `Invalid URL` when it is
called with an address that is not an absolute `https:` URL. -/
def relativeRedirect : Nat → String → HttpOutcome :=
  fun _ u =>
    if startsWith "https://".toList u.toList then .response ⟨302, some "/files/is.exe"⟩
    else .thrown ⟨"Invalid URL", none, none⟩

/-- Install-latest is requested and the download address answers with a
redirect to a relative path; the package manager would succeed. -/
def relativeRedirectEnv : Env :=
  { sampleEnv with installLatestInput := "true", http := relativeRedirect }

/-- Install-latest is requested, the download is answered 404, and the
package manager then succeeds. -/
def latestNotFoundEnv : Env :=
  { sampleEnv with installLatestInput := "True", http := fun _ _ => .response ⟨404, none⟩ }

/-- Install-latest is requested, the download is answered 404, and the
package manager fails as well. -/
def latestBothFailEnv : Env :=
  { sampleEnv with
    installLatestInput := "true"
    http := fun _ _ => .response ⟨404, none⟩
    exec := fun _ =>
      .error ⟨"Command failed: choco install innosetup -y", some "", some "Access denied"⟩ }

/-- Three options: one with an inner space, and the same option twice. -/
def optionsEnv : Env := { sampleEnv with options := ["/DName=My App", "/Q", "/Q"] }

/-- The package manager fails and reports on its standard output only, so the
error stream is empty. -/
def chocoFailureEnv : Env :=
  { sampleEnv with
    exec := fun _ =>
      .error ⟨"Command failed: choco install innosetup -y", some "innosetup not installed",
        some ""⟩ }

/-- The package manager fails with a text on its error stream. -/
def chocoStderrEnv : Env :=
  { sampleEnv with
    exec := fun _ =>
      .error ⟨"Command failed: choco install innosetup -y", some "", some "Access denied"⟩ }

/-! ## Auxiliary facts -/

theorem append_ne_empty (p x : String) (hp : p ≠ "") : p ++ x ≠ "" := by
  intro h
  apply hp
  have hd : (p ++ x).data = [] := by rw [h]
  rw [String.data_append] at hd
  have hp0 : p.data = [] := (List.append_eq_nil.mp hd).1
  cases p
  simp_all

theorem replaceQuotes_template (cs : List Char) : replaceQuotes ['$', '1'] cs = cs := by
  induction cs with
  | nil => rfl
  | cons c cs ih =>
    simp only [replaceQuotes, ih]
    split <;> simp [getSubstitution]

theorem escapeOption_eq (str : String) : escapeOption str = str := by
  unfold escapeOption
  have h : "$1".toList = ['$', '1'] := rfl
  rw [h, replaceQuotes_template]
  cases str
  rfl

theorem escapedOptions_eq (options : List String) : escapedOptions options = options := by
  unfold escapedOptions
  induction options with
  | nil => rfl
  | cons o os ih => simp [escapeOption_eq, ih]

theorem validated_iff (e : Env) :
    validated e = true ↔
      e.platform = "win32" ∧ truthy e.workspacePath = true ∧
        e.access (e.workspacePath.getD "") = true ∧
        ∃ files, e.readdir (e.workspacePath.getD "") = .ok files ∧ files.length ≠ 0 := by
  unfold validated
  cases hr : e.readdir (e.workspacePath.getD "") with
  | error err => simp
  | ok files => simp [and_assoc]

theorem body_of_validated (e : Env) (h : validated e = true) :
    body e =
      match (install e).2 with
      | .crashed err =>
        (.fsAccess (e.workspacePath.getD "") :: .fsReaddir (e.workspacePath.getD "")
          :: (install e).1, .crashed err)
      | .error err =>
        (.fsAccess (e.workspacePath.getD "") :: .fsReaddir (e.workspacePath.getD "")
          :: (install e).1, .error err)
      | .ok _ =>
        (.fsAccess (e.workspacePath.getD "") :: .fsReaddir (e.workspacePath.getD "")
          :: (install e).1 ++ (locateAndCompile e (e.workspacePath.getD "")).1,
          (locateAndCompile e (e.workspacePath.getD "")).2) := by
  obtain ⟨hp, hw, ha, files, hr, hf⟩ := (validated_iff e).mp h
  unfold body
  simp only [hp, hw, ha, hr, hf, ne_eq, not_true_eq_false, if_false, Bool.true_eq_false]

theorem getUrl_unfold (http : Nat → String → HttpOutcome) (pipe : String → Except JsError Unit)
    (dest u : String) (redirects : Nat) :
    getUrl http pipe dest u redirects =
      if redirects > maxRedirects then
        ([], .error (JsError.ofMessage "Too many redirects while downloading installer"))
      else
        match http redirects u with
        | .thrown err =>
          if redirects = 0 then ([.httpsGet u], .error err) else ([.httpsGet u], .crashed err)
        | .failure err => ([.httpsGet u], .error err)
        | .response res =>
          if isRedirect res then
            (.httpsGet u :: (getUrl http pipe dest (res.location.getD "") (redirects + 1)).1,
              (getUrl http pipe dest (res.location.getD "") (redirects + 1)).2)
          else if res.statusCode ≠ 200 then
            ([.httpsGet u],
              .error (JsError.ofMessage
                ("Download failed with status " ++ toString res.statusCode)))
          else
            match pipe dest with
            | .ok _ => ([.httpsGet u, .createWriteStream dest], .ok ())
            | .error err => ([.httpsGet u, .createWriteStream dest], .error err) := by
  rw [getUrl]

theorem getUrl_redirect (http : Nat → String → HttpOutcome) (pipe : String → Except JsError Unit)
    (dest u : String) (k : Nat) (res : HttpResponse) (hk : k ≤ maxRedirects)
    (hu : http k u = .response res) (hr : isRedirect res = true) :
    getUrl http pipe dest u k =
      (.httpsGet u :: (getUrl http pipe dest (res.location.getD "") (k + 1)).1,
        (getUrl http pipe dest (res.location.getD "") (k + 1)).2) := by
  rw [getUrl_unfold, if_neg (by omega), hu]
  simp [hr]

theorem getUrl_final (http : Nat → String → HttpOutcome) (pipe : String → Except JsError Unit)
    (dest u : String) (k : Nat) (res : HttpResponse) (hk : k ≤ maxRedirects)
    (hu : http k u = .response res) (hr : isRedirect res = false) :
    getUrl http pipe dest u k =
      if res.statusCode ≠ 200 then
        ([.httpsGet u],
          .error (JsError.ofMessage ("Download failed with status " ++ toString res.statusCode)))
      else
        match pipe dest with
        | .ok _ => ([.httpsGet u, .createWriteStream dest], .ok ())
        | .error err => ([.httpsGet u, .createWriteStream dest], .error err) := by
  rw [getUrl_unfold, if_neg (by omega), hu]
  simp [hr]

theorem getUrl_failure (http : Nat → String → HttpOutcome) (pipe : String → Except JsError Unit)
    (dest u : String) (k : Nat) (err : JsError) (hk : k ≤ maxRedirects)
    (hu : http k u = .failure err) :
    getUrl http pipe dest u k = ([.httpsGet u], .error err) := by
  rw [getUrl_unfold, if_neg (by omega), hu]

theorem getUrl_exhausted (http : Nat → String → HttpOutcome)
    (pipe : String → Except JsError Unit) (dest u : String) (k : Nat) (hk : maxRedirects < k) :
    getUrl http pipe dest u k =
      ([], .error (JsError.ofMessage "Too many redirects while downloading installer")) := by
  rw [getUrl_unfold, if_pos hk]

theorem getUrl_thrown_first (http : Nat → String → HttpOutcome)
    (pipe : String → Except JsError Unit) (dest u : String) (err : JsError)
    (hu : http 0 u = .thrown err) :
    getUrl http pipe dest u 0 = ([.httpsGet u], .error err) := by
  rw [getUrl_unfold, if_neg (by simp [maxRedirects]), hu]
  simp

theorem getUrl_thrown_later (http : Nat → String → HttpOutcome)
    (pipe : String → Except JsError Unit) (dest u : String) (k : Nat) (err : JsError)
    (hk : k + 1 ≤ maxRedirects) (hu : http (k + 1) u = .thrown err) :
    getUrl http pipe dest u (k + 1) = ([.httpsGet u], .crashed err) := by
  rw [getUrl_unfold, if_neg (by omega), hu]
  simp

theorem getUrl_thrown_trace (http : Nat → String → HttpOutcome)
    (pipe : String → Except JsError Unit) (dest u : String) (k : Nat) (err : JsError)
    (hk : k ≤ maxRedirects) (hu : http k u = .thrown err) :
    (getUrl http pipe dest u k).1 = [.httpsGet u] := by
  cases k with
  | zero => rw [getUrl_thrown_first http pipe dest u err hu]
  | succ k => rw [getUrl_thrown_later http pipe dest u k err hk hu]

theorem getUrl_trace (http : Nat → String → HttpOutcome) (pipe : String → Except JsError Unit)
    (dest : String) :
    ∀ (n : Nat) (u : String) (r : Nat), maxRedirects + 1 - r ≤ n →
      ∀ ev ∈ (getUrl http pipe dest u r).1, isDownloadEvent ev = true := by
  intro n
  induction n with
  | zero =>
    intro u r hr ev hev
    rw [getUrl_exhausted http pipe dest u r (by omega)] at hev
    simp at hev
  | succ n ih =>
    intro u r hr ev hev
    by_cases hk : maxRedirects < r
    · rw [getUrl_exhausted http pipe dest u r hk] at hev
      simp at hev
    · have hk1 : r ≤ maxRedirects := by omega
      cases hu : http r u with
      | thrown err =>
        rw [getUrl_thrown_trace http pipe dest u r err hk1 hu] at hev
        simp at hev
        subst hev
        rfl
      | failure err =>
        rw [getUrl_failure http pipe dest u r err hk1 hu] at hev
        simp at hev
        subst hev
        rfl
      | response res =>
        by_cases hred : isRedirect res = true
        · rw [getUrl_redirect http pipe dest u r res hk1 hu hred] at hev
          simp only [List.mem_cons] at hev
          rcases hev with hev | hev
          · subst hev
            rfl
          · exact ih _ (r + 1) (by omega) ev hev
        · have hred0 : isRedirect res = false := by simpa using hred
          rw [getUrl_final http pipe dest u r res hk1 hu hred0] at hev
          split at hev
          · simp at hev
            subst hev
            rfl
          · split at hev <;>
            · simp at hev
              rcases hev with hev | hev <;>
              · subst hev
                rfl

theorem downloadFile_trace (http : Nat → String → HttpOutcome)
    (pipe : String → Except JsError Unit) (url dest : String) :
    ∀ ev ∈ (downloadFile http pipe url dest).1, isDownloadEvent ev = true :=
  getUrl_trace http pipe dest (maxRedirects + 1) url 0 (by omega)

theorem scanCandidates_none (access : String → Bool) (cs : List String)
    (h : ∀ p ∈ cs, access p = false) :
    scanCandidates access cs = (cs.map Event.fsAccess, none) := by
  induction cs with
  | nil => rfl
  | cons c cs ih =>
    have hc : access c = false := h c (List.mem_cons_self c cs)
    have ht := ih (fun p hp => h p (List.mem_cons_of_mem c hp))
    simp [scanCandidates, hc, ht]

theorem scanCandidates_first (access : String → Bool) (before : List String) (first : String)
    (after : List String) (hb : ∀ q ∈ before, access q = false) (hf : access first = true) :
    scanCandidates access (before ++ first :: after) =
      ((before ++ [first]).map Event.fsAccess, some first) := by
  induction before with
  | nil => simp [scanCandidates, hf]
  | cons c cs ih =>
    have hc : access c = false := hb c (List.mem_cons_self c cs)
    have ht := ih (fun q hq => hb q (List.mem_cons_of_mem c hq))
    simp [scanCandidates, hc, ht]

theorem exists_first (access : String → Bool) (cs : List String)
    (h : ∃ p ∈ cs, access p = true) :
    ∃ before first after, cs = before ++ first :: after ∧
      (∀ q ∈ before, access q = false) ∧ access first = true := by
  induction cs with
  | nil => simp at h
  | cons c cs ih =>
    by_cases hc : access c = true
    · exact ⟨[], c, cs, rfl, by simp, hc⟩
    · have hc0 : access c = false := by simpa using hc
      obtain ⟨p, hp, hap⟩ := h
      have hp1 : p ∈ cs := by
        rcases List.mem_cons.mp hp with hpc | hpc
        · subst hpc
          exact absurd hap hc
        · exact hpc
      obtain ⟨before, first, after, hcs, hb, hf⟩ := ih ⟨p, hp1, hap⟩
      refine ⟨c :: before, first, after, by simp [hcs], ?_, hf⟩
      intro q hq
      rcases List.mem_cons.mp hq with hqc | hqc
      · subst hqc
        exact hc0
      · exact hb q hqc

theorem scanCandidates_trace (access : String → Bool) (cs : List String) :
    ∀ ev ∈ (scanCandidates access cs).1, ∃ p, ev = Event.fsAccess p := by
  induction cs with
  | nil => simp [scanCandidates]
  | cons c cs ih =>
    intro ev hev
    unfold scanCandidates at hev
    split at hev
    · simp at hev
      exact ⟨c, hev⟩
    · simp only [List.mem_cons] at hev
      rcases hev with hev | hev
      · exact ⟨c, hev⟩
      · exact ih ev hev

theorem findIscc_trace (join : List String → String) (pf86 pf : Option String)
    (access : String → Bool) (exec : String → Except JsError ProcOutput) :
    ∀ ev ∈ (findIscc join pf86 pf access exec).1,
      (∃ p, ev = Event.fsAccess p) ∨ ev = Event.exec whereCommand := by
  intro ev hev
  have hscan := scanCandidates_trace access (candidates join pf86 pf) ev
  cases hs : (scanCandidates access (candidates join pf86 pf)).2 with
  | some p =>
    simp only [findIscc, hs] at hev
    exact Or.inl (hscan hev)
  | none =>
    cases hx : exec whereCommand <;>
    · simp only [findIscc, hs, hx, List.mem_append, List.mem_singleton] at hev
      rcases hev with hev | hev
      · exact Or.inl (hscan hev)
      · exact Or.inr hev

theorem chocoInstall_ok (e : Env) (out : ProcOutput) (h : e.exec chocoCommand = .ok out) :
    chocoInstall e =
      ([.info "Installing Inno Setup via choco…", .exec chocoCommand, .info "Installed."],
        .ok ()) := by
  simp [chocoInstall, h]

theorem chocoInstall_error (e : Env) (err : JsError) (h : e.exec chocoCommand = .error err) :
    chocoInstall e =
      ([.info "Installing Inno Setup via choco…", .exec chocoCommand],
        .error (JsError.ofMessage
          ("Failed to install Inno Setup: " ++ orElse err.stderr err.message))) := by
  simp [chocoInstall, h]

theorem chocoInstall_trace (e : Env) :
    ∀ ev ∈ (chocoInstall e).1, (∃ m, ev = Event.info m) ∨ ev = Event.exec chocoCommand := by
  intro ev hev
  cases h : e.exec chocoCommand with
  | ok out =>
    rw [chocoInstall_ok e out h] at hev
    simp only [List.mem_cons, List.mem_singleton, List.not_mem_nil, or_false] at hev
    rcases hev with hev | hev | hev
    · exact Or.inl ⟨_, hev⟩
    · exact Or.inr hev
    · exact Or.inl ⟨_, hev⟩
  | error err =>
    rw [chocoInstall_error e err h] at hev
    simp only [List.mem_cons, List.mem_singleton, List.not_mem_nil, or_false] at hev
    rcases hev with hev | hev
    · exact Or.inl ⟨_, hev⟩
    · exact Or.inr hev

theorem downloadAndInstall_trace (e : Env) :
    ∀ ev ∈ (downloadAndInstall e).1,
      isDownloadEvent ev = true ∨ (∃ m, ev = Event.info m) ∨
        ev = Event.execFile (tmpExe e) silentFlags := by
  intro ev hev
  have hdl := downloadFile_trace e.http e.pipe (installerUrl e.installerUrlInput) (tmpExe e) ev
  cases hd : (downloadFile e.http e.pipe (installerUrl e.installerUrlInput) (tmpExe e)).2 with
  | error err =>
    simp only [downloadAndInstall, hd, List.mem_cons] at hev
    rcases hev with hev | hev
    · exact Or.inr (Or.inl ⟨_, hev⟩)
    · exact Or.inl (hdl hev)
  | crashed err =>
    simp only [downloadAndInstall, hd, List.mem_cons] at hev
    rcases hev with hev | hev
    · exact Or.inr (Or.inl ⟨_, hev⟩)
    · exact Or.inl (hdl hev)
  | ok u =>
    cases hx : e.execFile (tmpExe e) silentFlags <;>
    · simp only [downloadAndInstall, hd, hx, List.mem_cons, List.mem_append, List.mem_singleton,
        List.cons_append, List.not_mem_nil, or_false] at hev
      rcases hev with hev | hev | hev | hev
      · exact Or.inr (Or.inl ⟨_, hev⟩)
      · exact Or.inl (hdl hev)
      · exact Or.inr (Or.inl ⟨_, hev⟩)
      · exact Or.inr (Or.inr hev)

theorem install_trace (e : Env) :
    ∀ ev ∈ (install e).1,
      isDownloadEvent ev = true ∨ (∃ m, ev = Event.info m) ∨ (∃ m, ev = Event.warning m) ∨
        ev = Event.execFile (tmpExe e) silentFlags ∨ ev = Event.exec chocoCommand := by
  intro ev hev
  have hchoco := chocoInstall_trace e ev
  have hdown := downloadAndInstall_trace e ev
  by_cases hl : installLatest e.installLatestInput = true
  · cases ha : (downloadAndInstall e).2 with
    | ok u =>
      simp only [install, hl, ha, if_true] at hev
      rcases hdown hev with h | h | h
      · exact Or.inl h
      · exact Or.inr (Or.inl h)
      · exact Or.inr (Or.inr (Or.inr (Or.inl h)))
    | crashed err =>
      simp only [install, hl, ha, if_true] at hev
      rcases hdown hev with h | h | h
      · exact Or.inl h
      · exact Or.inr (Or.inl h)
      · exact Or.inr (Or.inr (Or.inr (Or.inl h)))
    | error err =>
      simp only [install, hl, ha, if_true, List.mem_append, List.mem_cons] at hev
      rcases hev with hev | hev | hev
      · rcases hdown hev with h | h | h
        · exact Or.inl h
        · exact Or.inr (Or.inl h)
        · exact Or.inr (Or.inr (Or.inr (Or.inl h)))
      · exact Or.inr (Or.inr (Or.inl ⟨_, hev⟩))
      · rcases hchoco hev with h | h
        · exact Or.inr (Or.inl h)
        · exact Or.inr (Or.inr (Or.inr (Or.inr h)))
  · simp only [install, hl, if_false, Bool.false_eq_true] at hev
    rcases hchoco hev with h | h
    · exact Or.inr (Or.inl h)
    · exact Or.inr (Or.inr (Or.inr (Or.inr h)))

theorem install_of_flag_false (e : Env) (hl : installLatest e.installLatestInput = false) :
    install e = chocoInstall e := by
  simp [install, hl]

theorem compile_ok (e : Env) (workspace isccPath : String) (out : ProcOutput)
    (h : e.execFile isccPath (compilerArgs e workspace) = .ok out) :
    compile e workspace isccPath =
      ([Event.info "Running iscc…", Event.execFile isccPath (compilerArgs e workspace)]
          ++ (if out.stdout = "" then [] else [Event.consoleLog out.stdout])
          ++ (if out.stderr = "" then [] else [Event.consoleError out.stderr]), .ok ()) := by
  simp [compile, h]

theorem compile_error (e : Env) (workspace isccPath : String) (err : JsError)
    (h : e.execFile isccPath (compilerArgs e workspace) = .error err) :
    compile e workspace isccPath =
      ([Event.info "Running iscc…", Event.execFile isccPath (compilerArgs e workspace)],
        .error (JsError.ofMessage ("Execution failed: " ++ orElse err.stderr err.message))) := by
  simp [compile, h]

theorem locateAndCompile_found (e : Env) (workspace isccPath : String)
    (hf : (located e).2 = some isccPath) (hne : isccPath ≠ "") :
    locateAndCompile e workspace =
      match (compile e workspace isccPath).2 with
      | .ok _ =>
        ((located e).1 ++ (compile e workspace isccPath).1 ++ [.consoleLog successLine], .ok ())
      | .error err => ((located e).1 ++ (compile e workspace isccPath).1, .error err)
      | .crashed err => ((located e).1 ++ (compile e workspace isccPath).1, .crashed err) := by
  simp [locateAndCompile, hf, truthy, hne]

theorem run_of_body_error (e : Env) (trace : List Event) (msg : String) (hmsg : msg ≠ "")
    (h : body e = (trace, .error (JsError.ofMessage msg))) :
    run e = trace ++ [.setFailed msg, .processExit 1] := by
  simp [run, h, JsError.ofMessage, orElse, hmsg]

theorem isConsoleEvent_of_download (ev : Event) (h : isDownloadEvent ev = true) :
    isConsoleEvent ev = false := by
  cases ev <;> simp_all [isDownloadEvent, isConsoleEvent]

theorem beforeCompile_no_console (e : Env) :
    ∀ ev ∈ beforeCompile e, isConsoleEvent ev = false := by
  intro ev hev
  simp only [beforeCompile, List.mem_cons, List.mem_append] at hev
  rcases hev with (hev | hev | hev) | hev
  · subst hev
    rfl
  · subst hev
    rfl
  · rcases install_trace e ev hev with h | ⟨m, h⟩ | ⟨m, h⟩ | h | h
    · exact isConsoleEvent_of_download ev h
    all_goals
      subst h
      rfl
  · rcases findIscc_trace _ _ _ _ _ ev hev with ⟨m, h⟩ | h <;>
    · subst h
      rfl

theorem body_found (e : Env) (isccPath : String) (hv : validated e = true)
    (hi : (install e).2 = .ok ()) (hf : (located e).2 = some isccPath) (hne : isccPath ≠ "") :
    body e =
      match (compile e (e.workspacePath.getD "") isccPath).2 with
      | .ok _ =>
        (beforeCompile e ++ (compile e (e.workspacePath.getD "") isccPath).1
          ++ [.consoleLog successLine], .ok ())
      | .error err =>
        (beforeCompile e ++ (compile e (e.workspacePath.getD "") isccPath).1, .error err)
      | .crashed err =>
        (beforeCompile e ++ (compile e (e.workspacePath.getD "") isccPath).1, .crashed err) := by
  rw [body_of_validated e hv, hi]
  simp only
  rw [locateAndCompile_found e _ isccPath hf hne]
  cases (compile e (e.workspacePath.getD "") isccPath).2 <;>
    simp [beforeCompile, located, successLine]

theorem run_compile_error (e : Env) (isccPath : String) (err : JsError)
    (hv : validated e = true) (hi : (install e).2 = .ok ())
    (hf : (located e).2 = some isccPath) (hne : isccPath ≠ "")
    (hx : e.execFile isccPath (compilerArgs e (e.workspacePath.getD "")) = .error err) :
    run e =
      beforeCompile e ++
        [.info "Running iscc…",
         .execFile isccPath (compilerArgs e (e.workspacePath.getD "")),
         .setFailed ("Execution failed: " ++ orElse err.stderr err.message),
         .processExit 1] := by
  have hb := body_found e isccPath hv hi hf hne
  rw [compile_error e _ isccPath err hx] at hb
  simp only at hb
  rw [run_of_body_error e _ _ (append_ne_empty _ _ (by decide)) hb]
  simp

theorem run_compile_ok (e : Env) (isccPath : String) (out : ProcOutput)
    (hv : validated e = true) (hi : (install e).2 = .ok ())
    (hf : (located e).2 = some isccPath) (hne : isccPath ≠ "")
    (hx : e.execFile isccPath (compilerArgs e (e.workspacePath.getD "")) = .ok out) :
    run e =
      beforeCompile e ++
        [.info "Running iscc…",
         .execFile isccPath (compilerArgs e (e.workspacePath.getD ""))]
        ++ (if out.stdout = "" then [] else [Event.consoleLog out.stdout])
        ++ (if out.stderr = "" then [] else [Event.consoleError out.stderr])
        ++ [.consoleLog successLine] := by
  have hb := body_found e isccPath hv hi hf hne
  rw [compile_ok e _ isccPath out hx] at hb
  simp only at hb
  simp [run, hb]

theorem requestedUrl_succ (http : Nat → String → HttpOutcome) (url : String) (k : Nat)
    (next : String) (h : requestedUrl http url (k + 1) = some next) :
    ∃ u res, requestedUrl http url k = some u ∧ http k u = .response res ∧
      isRedirect res = true ∧ next = res.location.getD "" := by
  simp only [requestedUrl] at h
  cases hk : requestedUrl http url k with
  | none => simp [hk] at h
  | some u =>
    cases hu : http k u with
    | failure err => simp [hk, hu] at h
    | thrown err => simp [hk, hu] at h
    | response res =>
      by_cases hr : isRedirect res = true
      · simp [hk, hu, hr] at h
        exact ⟨u, res, rfl, hu, hr, h.symm⟩
      · simp [hk, hu, hr] at h

theorem downloadFile_result_at (http : Nat → String → HttpOutcome)
    (pipe : String → Except JsError Unit) (url dest : String) :
    ∀ (k : Nat) (u : String), k ≤ maxRedirects + 1 → requestedUrl http url k = some u →
      (downloadFile http pipe url dest).2 = (getUrl http pipe dest u k).2 := by
  intro k
  induction k with
  | zero =>
    intro u _ hu
    simp only [requestedUrl, Option.some.injEq] at hu
    rw [downloadFile, hu]
  | succ k ih =>
    intro next hk hnext
    obtain ⟨u, res, hu, hres, hr, hloc⟩ := requestedUrl_succ http url k next hnext
    rw [ih u (by omega) hu, getUrl_redirect http pipe dest u k res (by omega) hres hr, hloc]

theorem getUrl_requests (http : Nat → String → HttpOutcome) (pipe : String → Except JsError Unit)
    (dest : String) :
    ∀ (n : Nat) (u : String) (r : Nat), maxRedirects + 1 - r ≤ n →
      (getUrl http pipe dest u r).1.countP isRequest ≤ n := by
  intro n
  induction n with
  | zero =>
    intro u r hr
    rw [getUrl_exhausted http pipe dest u r (by omega)]
    simp
  | succ n ih =>
    intro u r hr
    by_cases hk : maxRedirects < r
    · rw [getUrl_exhausted http pipe dest u r hk]
      simp
    · have hk1 : r ≤ maxRedirects := by omega
      cases hu : http r u with
      | failure err =>
        rw [getUrl_failure http pipe dest u r err hk1 hu]
        simp [isRequest]
      | thrown err =>
        rw [getUrl_thrown_trace http pipe dest u r err hk1 hu]
        simp [isRequest]
      | response res =>
        by_cases hred : isRedirect res = true
        · rw [getUrl_redirect http pipe dest u r res hk1 hu hred]
          have := ih (res.location.getD "") (r + 1) (by omega)
          simp only [List.countP_cons, isRequest, if_true]
          omega
        · have hred0 : isRedirect res = false := by simpa using hred
          rw [getUrl_final http pipe dest u r res hk1 hu hred0]
          split
          · simp [isRequest]
          · split <;> simp [isRequest, List.countP_cons]

theorem downloadFile_settles (http : Nat → String → HttpOutcome)
    (pipe : String → Except JsError Unit) (url dest : String)
    (hok : (downloadFile http pipe url dest).2 = .ok ()) :
    ∀ k, k ≤ maxRedirects + 1 →
      (∃ j u res, j < k ∧ requestedUrl http url j = some u ∧ http j u = .response res ∧
        isRedirect res = false ∧ res.statusCode = 200 ∧ pipe dest = .ok ()) ∨
      ∃ u, requestedUrl http url k = some u := by
  intro k
  induction k with
  | zero =>
    intro _
    exact Or.inr ⟨url, rfl⟩
  | succ k ih =>
    intro hk
    rcases ih (by omega) with ⟨j, u, res, hj, h⟩ | ⟨u, hu⟩
    · exact Or.inl ⟨j, u, res, by omega, h⟩
    · have hres := downloadFile_result_at http pipe url dest k u (by omega) hu
      rw [hok] at hres
      have hk1 : k ≤ maxRedirects := by omega
      cases hh : http k u with
      | failure err =>
        rw [getUrl_failure http pipe dest u k err hk1 hh] at hres
        simp at hres
      | thrown err =>
        cases k with
        | zero =>
          rw [getUrl_thrown_first http pipe dest u err hh] at hres
          simp at hres
        | succ k =>
          rw [getUrl_thrown_later http pipe dest u k err hk1 hh] at hres
          simp at hres
      | response res =>
        by_cases hred : isRedirect res = true
        · right
          exact ⟨res.location.getD "", by simp [requestedUrl, hu, hh, hred]⟩
        · have hred0 : isRedirect res = false := by simpa using hred
          rw [getUrl_final http pipe dest u k res hk1 hh hred0] at hres
          by_cases hs : res.statusCode = 200
          · cases hp : pipe dest with
            | error err => simp [hs, hp] at hres
            | ok v => exact Or.inl ⟨k, u, res, by omega, hu, hh, hred0, hs, rfl⟩
          · simp [hs] at hres

theorem downloadAndInstall_error (e : Env) (err : JsError)
    (h : (downloadFile e.http e.pipe (installerUrl e.installerUrlInput) (tmpExe e)).2 = .error err ∨
      ((downloadFile e.http e.pipe (installerUrl e.installerUrlInput) (tmpExe e)).2 = .ok () ∧
        e.execFile (tmpExe e) silentFlags = .error err)) :
    (downloadAndInstall e).2 = .error err := by
  rcases h with h | ⟨h, hx⟩
  · simp [downloadAndInstall, h]
  · simp [downloadAndInstall, h, hx]

theorem install_fallback (e : Env) (err : JsError)
    (hl : installLatest e.installLatestInput = true)
    (ha : (downloadAndInstall e).2 = .error err) :
    install e =
      ((downloadAndInstall e).1 ++
        Event.warning ("Download/install failed: " ++ err.message ++ ". Falling back to Chocolatey.")
          :: (chocoInstall e).1,
        (chocoInstall e).2) := by
  simp [install, hl, ha]

theorem downloadAndInstall_no_choco (e : Env) :
    Event.exec chocoCommand ∉ (downloadAndInstall e).1 := by
  intro hmem
  rcases downloadAndInstall_trace e _ hmem with h | ⟨m, h⟩ | h
  · simp [isDownloadEvent] at h
  · simp at h
  · simp at h

theorem locateAndCompile_starts (e : Env) (workspace : String) :
    ∃ rest, (locateAndCompile e workspace).1 = (located e).1 ++ rest := by
  unfold locateAndCompile
  simp only
  split
  · split
    · exact ⟨_, by rw [List.append_assoc]⟩
    · exact ⟨_, rfl⟩
    · exact ⟨_, rfl⟩
  · exact ⟨[], by simp⟩

theorem run_reaches_discovery (e : Env) (hv : validated e = true)
    (hi : (install e).2 = .ok ()) : ∃ rest, run e = beforeCompile e ++ rest := by
  obtain ⟨rest, hrest⟩ := locateAndCompile_starts e (e.workspacePath.getD "")
  have hb := body_of_validated e hv
  rw [hi] at hb
  simp only at hb
  unfold run
  rw [hb]
  simp only [hrest]
  split
  · exact ⟨rest, by simp [beforeCompile]⟩
  · rename_i err _
    exact ⟨rest ++ [.setFailed (orElse (some err.message) "An unknown error occurred."),
      .processExit 1], by simp [beforeCompile]⟩
  · rename_i err _
    exact ⟨rest ++ [.uncaughtException err.message], by simp [beforeCompile]⟩

theorem run_install_error (e : Env) (msg : String) (hmsg : msg ≠ "")
    (hv : validated e = true) (hi : (install e).2 = .error (JsError.ofMessage msg)) :
    run e =
      .fsAccess (e.workspacePath.getD "") :: .fsReaddir (e.workspacePath.getD "")
        :: (install e).1 ++ [.setFailed msg, .processExit 1] := by
  have hb := body_of_validated e hv
  rw [hi] at hb
  simp only at hb
  rw [run_of_body_error e _ msg hmsg hb]

theorem located_no_download (e : Env) : ∀ ev ∈ (located e).1, isDownloadEvent ev = false := by
  intro ev hev
  rcases findIscc_trace _ _ _ _ _ ev hev with ⟨m, h⟩ | h <;>
  · subst h
    rfl

theorem compile_no_download (e : Env) (workspace isccPath : String) :
    ∀ ev ∈ (compile e workspace isccPath).1, isDownloadEvent ev = false := by
  intro ev hev
  cases hx : e.execFile isccPath (compilerArgs e workspace) with
  | ok out =>
    rw [compile_ok e workspace isccPath out hx] at hev
    simp only [List.mem_append, List.mem_cons, List.mem_singleton, List.not_mem_nil,
      or_false] at hev
    rcases hev with ((hev | hev) | hev) | hev
    · subst hev
      rfl
    · subst hev
      rfl
    · split at hev
      · simp at hev
      · simp at hev
        subst hev
        rfl
    · split at hev
      · simp at hev
      · simp at hev
        subst hev
        rfl
  | error err =>
    rw [compile_error e workspace isccPath err hx] at hev
    simp only [List.mem_cons, List.mem_singleton, List.not_mem_nil, or_false] at hev
    rcases hev with hev | hev <;>
    · subst hev
      rfl

theorem locateAndCompile_no_download (e : Env) (workspace : String) :
    ∀ ev ∈ (locateAndCompile e workspace).1, isDownloadEvent ev = false := by
  intro ev hev
  unfold locateAndCompile at hev
  simp only at hev
  split at hev
  · split at hev
    · simp only [List.mem_append, List.mem_singleton] at hev
      rcases hev with (hev | hev) | hev
      · exact located_no_download e ev hev
      · exact compile_no_download e _ _ ev hev
      · subst hev
        rfl
    · simp only [List.mem_append] at hev
      rcases hev with hev | hev
      · exact located_no_download e ev hev
      · exact compile_no_download e _ _ ev hev
    · simp only [List.mem_append] at hev
      rcases hev with hev | hev
      · exact located_no_download e ev hev
      · exact compile_no_download e _ _ ev hev
  · exact located_no_download e ev hev

theorem chocoInstall_no_download (e : Env) :
    ∀ ev ∈ (chocoInstall e).1, isDownloadEvent ev = false := by
  intro ev hev
  rcases chocoInstall_trace e ev hev with ⟨m, h⟩ | h <;>
  · subst h
    rfl

theorem body_no_download (e : Env) (hl : installLatest e.installLatestInput = false) :
    ∀ ev ∈ (body e).1, isDownloadEvent ev = false := by
  intro ev hev
  have hinst : ∀ ev ∈ (install e).1, isDownloadEvent ev = false := by
    rw [install_of_flag_false e hl]
    exact chocoInstall_no_download e
  unfold body at hev
  split at hev
  · simp at hev
  · split at hev
    · simp at hev
    · simp only at hev
      split at hev
      · simp at hev
        subst hev
        rfl
      · split at hev
        · simp at hev
          rcases hev with hev | hev <;>
          · subst hev
            rfl
        · split at hev
          · simp at hev
            rcases hev with hev | hev <;>
            · subst hev
              rfl
          · split at hev
            · simp only [List.mem_cons] at hev
              rcases hev with hev | hev | hev
              · subst hev
                rfl
              · subst hev
                rfl
              · exact hinst ev hev
            · simp only [List.mem_cons] at hev
              rcases hev with hev | hev | hev
              · subst hev
                rfl
              · subst hev
                rfl
              · exact hinst ev hev
            · simp only [List.mem_cons, List.mem_append] at hev
              rcases hev with (hev | hev | hev) | hev
              · subst hev
                rfl
              · subst hev
                rfl
              · exact hinst ev hev
              · exact locateAndCompile_no_download e _ ev hev

theorem run_no_download (e : Env) (hl : installLatest e.installLatestInput = false) :
    ∀ ev ∈ run e, isDownloadEvent ev = false := by
  intro ev hev
  unfold run at hev
  simp only at hev
  split at hev
  · exact body_no_download e hl ev hev
  · simp only [List.mem_append, List.mem_cons, List.mem_singleton, List.not_mem_nil,
      or_false] at hev
    rcases hev with hev | hev | hev
    · exact body_no_download e hl ev hev
    · subst hev
      rfl
    · subst hev
      rfl
  · simp only [List.mem_append, List.mem_singleton] at hev
    rcases hev with hev | hev
    · exact body_no_download e hl ev hev
    · subst hev
      rfl

theorem installLatest_false (input : String)
    (h : input = "" ∨ toLowerCase input ≠ "true") : installLatest input = false := by
  rcases h with h | h
  · subst h
    rfl
  · by_cases he : input = ""
    · subst he
      rfl
    · simp [installLatest, orElse, he, h]

theorem run_download_crash (e : Env) (trace : List Event) (err : JsError)
    (hv : validated e = true) (hl : installLatest e.installLatestInput = true)
    (hd : downloadFile e.http e.pipe (installerUrl e.installerUrlInput) (tmpExe e)
      = (trace, .crashed err)) :
    run e =
      .fsAccess (e.workspacePath.getD "") :: .fsReaddir (e.workspacePath.getD "")
        :: .info ("Downloading Inno Setup from " ++ installerUrl e.installerUrlInput ++ "…")
        :: trace ++ [.uncaughtException err.message] := by
  have hinst : install e =
      (.info ("Downloading Inno Setup from " ++ installerUrl e.installerUrlInput ++ "…")
        :: trace, .crashed err) := by
    simp [install, hl, downloadAndInstall, hd]
  have hb := body_of_validated e hv
  rw [hinst] at hb
  simp only at hb
  simp [run, hb]

/-! ## The claims -/

/-- C1, evaluated at the option `a"b`: the replacement template `$1` puts the
matched quote back once, so the option reaches the compiler unchanged, as
`a"b`, where the doubling the claim describes would give `a""b`. -/
theorem escapedOptions_keeps_single_quote_mark :
    escapedOptions ["a\"b"] = ["a\"b"] ∧
      String.mk (doubleQuotes "a\"b".toList) = "a\"\"b" ∧
      escapedOptions ["a\"b"] ≠ [String.mk (doubleQuotes "a\"b".toList)] ∧
      compilerArgs { sampleEnv with options := ["a\"b"] } "D:/a/repo"
        = ["D:/a/repo/setup.iss", "a\"b"] := by
  decide

/-- C2: with both program-files variables set the candidates are the six
paths in the order x86 / `Inno Setup 6`, `Inno Setup 7`, `Inno Setup`, then
native / the same three; whenever some candidate exists, `findIscc` returns the
earliest existing one, having only called `fs.access` on the candidates up to
it and never the PATH lookup; when none exists the PATH lookup is run after
all candidates were tried. -/
theorem findIscc_returns_earliest_existing (join : List String → String)
    (pf86 pf : Option String) (access : String → Bool)
    (exec : String → Except JsError ProcOutput) :
    (∀ a b, pf86 = some a → a ≠ "" → pf = some b → b ≠ "" →
      candidates join pf86 pf =
        [join [a, "Inno Setup 6", "iscc.exe"], join [a, "Inno Setup 7", "iscc.exe"],
         join [a, "Inno Setup", "iscc.exe"], join [b, "Inno Setup 6", "iscc.exe"],
         join [b, "Inno Setup 7", "iscc.exe"], join [b, "Inno Setup", "iscc.exe"]]) ∧
    ((∃ p ∈ candidates join pf86 pf, access p = true) →
      ∃ before first after,
        candidates join pf86 pf = before ++ first :: after ∧
        (∀ q ∈ before, access q = false) ∧ access first = true ∧
        findIscc join pf86 pf access exec = ((before ++ [first]).map Event.fsAccess, some first) ∧
        ∀ command, Event.exec command ∉ (findIscc join pf86 pf access exec).1) ∧
    ((∀ p ∈ candidates join pf86 pf, access p = false) →
      (findIscc join pf86 pf access exec).1 =
        (candidates join pf86 pf).map Event.fsAccess ++ [Event.exec whereCommand]) := by
  refine ⟨?_, ?_, ?_⟩
  · intro a b ha hane hb hbne
    simp [candidates, candidatesFor, ha, hb, hane, hbne]
  · intro h
    obtain ⟨before, first, after, hcs, hb, hf⟩ := exists_first access _ h
    have hfind : findIscc join pf86 pf access exec
        = ((before ++ [first]).map Event.fsAccess, some first) := by
      unfold findIscc
      rw [hcs, scanCandidates_first access before first after hb hf]
    refine ⟨before, first, after, hcs, hb, hf, hfind, ?_⟩
    intro command hmem
    rw [hfind] at hmem
    simp at hmem
  · intro h
    unfold findIscc
    rw [scanCandidates_none access _ h]
    cases exec whereCommand <;> rfl

/-- An instance of C2: the x86 `Inno Setup 6` directory is absent, the x86
`Inno Setup 7` and the native `Inno Setup` compilers exist; the former is
found after two `fs.access` calls. -/
theorem findIscc_returns_earliest_existing_witness :
    findIscc sampleEnv.join (some "C:/PF86") (some "C:/PF")
        (fun p => p == "C:/PF86/Inno Setup 7/iscc.exe" || p == "C:/PF/Inno Setup/iscc.exe")
        (fun _ => .ok ⟨"", ""⟩)
      = ([.fsAccess "C:/PF86/Inno Setup 6/iscc.exe", .fsAccess "C:/PF86/Inno Setup 7/iscc.exe"],
          some "C:/PF86/Inno Setup 7/iscc.exe") := by
  obtain ⟨before, first, after, hcs, hb, hf, hfind, -⟩ :=
    (findIscc_returns_earliest_existing sampleEnv.join (some "C:/PF86") (some "C:/PF")
      (fun p => p == "C:/PF86/Inno Setup 7/iscc.exe" || p == "C:/PF/Inno Setup/iscc.exe")
      (fun _ => .ok ⟨"", ""⟩)).2.1 ⟨"C:/PF86/Inno Setup 7/iscc.exe", by decide, by decide⟩
  decide

/-- C5: on every platform other than `win32`, whatever the rest of the
environment is, the run consists of exactly two events: the failure message
`This action is only supported on Windows!` and the exit with code 1; no
file-system, network or child-process call is made. -/
theorem run_off_windows (e : Env) (h : e.platform ≠ "win32") :
    run e = [.setFailed "This action is only supported on Windows!", .processExit 1] := by
  simp [run, body, h, orElse, JsError.ofMessage]

/-- An instance of C5: a Linux runner without `GITHUB_WORKSPACE`. -/
theorem run_off_windows_witness :
    linuxEnv.platform ≠ "win32" ∧ linuxEnv.workspacePath = none ∧
      run linuxEnv
        = [.setFailed "This action is only supported on Windows!", .processExit 1] :=
  ⟨by decide, rfl, run_off_windows linuxEnv (by decide)⟩

/-- C6: on `win32` with `GITHUB_WORKSPACE` set (a non-empty string, which is
what line 28 tests), a workspace that cannot be accessed makes the run
`fs.access`, then fail with `Workspace path does not exist.`; a workspace
that lists zero entries makes the run `fs.access`, `fs.readdir`, then fail with
the not-cloned message; in both cases nothing else is done. -/
theorem run_workspace_missing_or_empty (e : Env) (ws : String) (hp : e.platform = "win32")
    (hw : e.workspacePath = some ws) (hne : ws ≠ "") :
    (e.access ws = false →
      run e = [.fsAccess ws, .setFailed "Workspace path does not exist.", .processExit 1]) ∧
    (e.access ws = true → e.readdir ws = .ok [] →
      run e = [.fsAccess ws, .fsReaddir ws,
        .setFailed
          "The repository was not cloned. Please specify the actions/checkout action before this step.",
        .processExit 1]) := by
  constructor
  · intro ha
    simp [run, body, hp, hw, hne, truthy, ha, orElse, JsError.ofMessage]
  · intro ha hr
    simp [run, body, hp, hw, hne, truthy, ha, hr, orElse, JsError.ofMessage]

/-- Two instances of C6: a missing and an empty workspace. -/
theorem run_workspace_missing_or_empty_witness :
    run missingWorkspaceEnv
        = [.fsAccess "D:/a/repo", .setFailed "Workspace path does not exist.", .processExit 1] ∧
      run emptyWorkspaceEnv
        = [.fsAccess "D:/a/repo", .fsReaddir "D:/a/repo",
            .setFailed
              "The repository was not cloned. Please specify the actions/checkout action before this step.",
            .processExit 1] :=
  ⟨(run_workspace_missing_or_empty missingWorkspaceEnv "D:/a/repo" rfl rfl (by decide)).1 rfl,
   (run_workspace_missing_or_empty emptyWorkspaceEnv "D:/a/repo" rfl rfl (by decide)).2 rfl rfl⟩

/-- C7: when validation, installation and discovery succeed and the compiler
process fails, the run ends with the failure message `Execution failed: `
followed by the captured error stream when it is non-empty and by the error
message otherwise, then exits with code 1; the success line is not printed. -/
theorem run_compiler_failure (e : Env) (isccPath : String) (err : JsError)
    (hv : validated e = true) (hi : (install e).2 = .ok ())
    (hf : (located e).2 = some isccPath) (hne : isccPath ≠ "")
    (hx : e.execFile isccPath (compilerArgs e (e.workspacePath.getD "")) = .error err) :
    run e =
        beforeCompile e ++
          [.info "Running iscc…",
           .execFile isccPath (compilerArgs e (e.workspacePath.getD "")),
           .setFailed ("Execution failed: " ++ orElse err.stderr err.message),
           .processExit 1] ∧
      (∀ text, err.stderr = some text → text ≠ "" → orElse err.stderr err.message = text) ∧
      (err.stderr = none ∨ err.stderr = some "" → orElse err.stderr err.message = err.message) ∧
      Event.consoleLog successLine ∉ run e := by
  have hrun := run_compile_error e isccPath err hv hi hf hne hx
  refine ⟨hrun, ?_, ?_, ?_⟩
  · intro text ht hte
    simp [orElse, ht, hte]
  · intro h
    rcases h with h | h <;> simp [orElse, h]
  · intro hmem
    rw [hrun] at hmem
    simp only [List.mem_append, List.mem_cons, List.mem_singleton, List.not_mem_nil,
      or_false] at hmem
    rcases hmem with hmem | hmem
    · have := beforeCompile_no_console e _ hmem
      simp [isConsoleEvent] at this
    · simp at hmem

/-- An instance of C7: exit code 1 with the error stream `Error on line 5`. -/
theorem run_compiler_failure_witness :
    run compilerFailureEnv =
      [.fsAccess "D:/a/repo", .fsReaddir "D:/a/repo",
       .info "Installing Inno Setup via choco…", .exec "choco install innosetup -y",
       .info "Installed.", .fsAccess sampleIscc, .info "Running iscc…",
       .execFile sampleIscc ["D:/a/repo/setup.iss", "/DMyVer=a\"b", "/Q"],
       .setFailed "Execution failed: Error on line 5", .processExit 1] :=
  (run_compiler_failure compilerFailureEnv sampleIscc
    ⟨"Command failed: iscc.exe", some "Compiling", some "Error on line 5"⟩
    (by decide) rfl rfl (by decide) rfl).1

/-- C8, refuted at a failing compiler run: the compiler wrote `Compiling` to
its standard output and `Error on line 5` to its error stream before exiting
with code 1, and the run logs neither. -/
theorem compiler_output_dropped_on_failure :
    compilerFailureEnv.execFile sampleIscc (compilerArgs compilerFailureEnv "D:/a/repo")
        = .error ⟨"Command failed: iscc.exe", some "Compiling", some "Error on line 5"⟩ ∧
      Event.consoleLog "Compiling" ∉ run compilerFailureEnv ∧
      Event.consoleError "Error on line 5" ∉ run compilerFailureEnv :=
  ⟨rfl, by decide, by decide⟩

/-- C8 as amended: when validation, installation and discovery succeed, a
compiler run that exits with code 0 has its non-empty standard output logged
with `console.log`, then its non-empty error stream with `console.error`,
then the success line; a compiler run that fails has no output logged
at all and goes straight to the failure message and the exit. -/
theorem compiler_output_relayed_on_success (e : Env) (isccPath : String)
    (hv : validated e = true) (hi : (install e).2 = .ok ())
    (hf : (located e).2 = some isccPath) (hne : isccPath ≠ "") :
    (∀ out, e.execFile isccPath (compilerArgs e (e.workspacePath.getD "")) = .ok out →
      run e =
        beforeCompile e ++
          [.info "Running iscc…",
           .execFile isccPath (compilerArgs e (e.workspacePath.getD ""))]
          ++ (if out.stdout = "" then [] else [Event.consoleLog out.stdout])
          ++ (if out.stderr = "" then [] else [Event.consoleError out.stderr])
          ++ [.consoleLog successLine]) ∧
    (∀ err, e.execFile isccPath (compilerArgs e (e.workspacePath.getD "")) = .error err →
      (∀ ev ∈ run e, isConsoleEvent ev = false) ∧
      run e =
        beforeCompile e ++
          [.info "Running iscc…",
           .execFile isccPath (compilerArgs e (e.workspacePath.getD "")),
           .setFailed ("Execution failed: " ++ orElse err.stderr err.message),
           .processExit 1]) := by
  constructor
  · intro out hx
    exact run_compile_ok e isccPath out hv hi hf hne hx
  · intro err hx
    have hrun := run_compile_error e isccPath err hv hi hf hne hx
    refine ⟨?_, hrun⟩
    intro ev hev
    rw [hrun] at hev
    simp only [List.mem_append, List.mem_cons, List.mem_singleton, List.not_mem_nil,
      or_false] at hev
    rcases hev with hev | hev | hev | hev | hev
    · exact beforeCompile_no_console e ev hev
    all_goals
      subst hev
      rfl

/-- An instance of amended C8: exit code 0 with text on both streams. -/
theorem compiler_output_relayed_on_success_witness :
    run compilerWarningEnv =
      [.fsAccess "D:/a/repo", .fsReaddir "D:/a/repo",
       .info "Installing Inno Setup via choco…", .exec "choco install innosetup -y",
       .info "Installed.", .fsAccess sampleIscc, .info "Running iscc…",
       .execFile sampleIscc ["D:/a/repo/setup.iss", "/DMyVer=a\"b", "/Q"],
       .consoleLog "Done", .consoleError "Warning: unused",
       .consoleLog "Inno Setup script compiled successfully."] :=
  (compiler_output_relayed_on_success compilerWarningEnv sampleIscc
    (by decide) rfl rfl (by decide)).1 ⟨"Done", "Warning: unused"⟩ rfl

/-- C10: when validation, installation and discovery succeed, the compiler
is started right after the discovery with the script path (workspace joined
with the `path` input) followed by the options, one argument each, in input
order: `n + 1` arguments for `n` options.  No other process is started
afterwards. -/
theorem compiler_arguments (e : Env) (isccPath : String)
    (hv : validated e = true) (hi : (install e).2 = .ok ())
    (hf : (located e).2 = some isccPath) (hne : isccPath ≠ "") :
    (∃ after,
      run e =
        beforeCompile e ++
          .info "Running iscc…"
            :: .execFile isccPath (e.join [e.workspacePath.getD "", e.scriptInput] :: e.options)
            :: after ∧
      ∀ file args, Event.execFile file args ∉ after) ∧
    (compilerArgs e (e.workspacePath.getD "")).length = e.options.length + 1 ∧
    compilerArgs e (e.workspacePath.getD "")
      = e.join [e.workspacePath.getD "", e.scriptInput] :: e.options := by
  have hargs : compilerArgs e (e.workspacePath.getD "")
      = e.join [e.workspacePath.getD "", e.scriptInput] :: e.options := by
    simp [compilerArgs, escapedOptions_eq]
  refine ⟨?_, by simp [hargs], hargs⟩
  cases hx : e.execFile isccPath (compilerArgs e (e.workspacePath.getD "")) with
  | ok out =>
    refine ⟨(if out.stdout = "" then [] else [Event.consoleLog out.stdout])
          ++ (if out.stderr = "" then [] else [Event.consoleError out.stderr])
          ++ [.consoleLog successLine], ?_, ?_⟩
    · rw [run_compile_ok e isccPath out hv hi hf hne hx, hargs]
      simp
    · intro file args hmem
      simp only [List.mem_append, List.mem_singleton] at hmem
      rcases hmem with (hmem | hmem) | hmem
      · split at hmem <;> simp at hmem
      · split at hmem <;> simp at hmem
      · simp at hmem
  | error err =>
    refine ⟨[.setFailed ("Execution failed: " ++ orElse err.stderr err.message),
      .processExit 1], ?_, ?_⟩
    · rw [run_compile_error e isccPath err hv hi hf hne hx, hargs]
    · intro file args hmem
      simp at hmem

/-- An instance of C10: three options, one with an inner space and one
repeated, give four arguments. -/
theorem compiler_arguments_witness :
    compilerArgs optionsEnv "D:/a/repo"
        = ["D:/a/repo/setup.iss", "/DName=My App", "/Q", "/Q"] ∧
      (compilerArgs optionsEnv "D:/a/repo").length = 3 + 1 :=
  ⟨(compiler_arguments optionsEnv sampleIscc (by decide) rfl rfl (by decide)).2.2,
   (compiler_arguments optionsEnv sampleIscc (by decide) rfl rfl (by decide)).2.1⟩

/-- C3, evaluated at a download whose first answer is a 302 with the
relative `Location` `/files/is.exe`: the second `https.get`, called from the
response callback, throws `Invalid URL`; nothing catches it, so the process
dies after the two requests.  No warning is logged, the package manager is
never run and no failure message is set, where the claim has the fallback
run once for a download that fails for any reason. -/
theorem install_latest_dies_on_relative_redirect :
    installLatest relativeRedirectEnv.installLatestInput = true ∧
    relativeRedirectEnv.http 0 (installerUrl relativeRedirectEnv.installerUrlInput)
      = .response ⟨302, some "/files/is.exe"⟩ ∧
    relativeRedirectEnv.http 1 "/files/is.exe" = .thrown ⟨"Invalid URL", none, none⟩ ∧
    run relativeRedirectEnv =
      [.fsAccess "D:/a/repo", .fsReaddir "D:/a/repo",
       .info "Downloading Inno Setup from https://jrsoftware.org/download.php/is.exe?site=1…",
       .httpsGet "https://jrsoftware.org/download.php/is.exe?site=1",
       .httpsGet "/files/is.exe",
       .uncaughtException "Invalid URL"] ∧
    Event.exec chocoCommand ∉ run relativeRedirectEnv ∧
    (∀ msg, Event.setFailed msg ∉ run relativeRedirectEnv) := by
  have hd : downloadFile relativeRedirectEnv.http relativeRedirectEnv.pipe
      (installerUrl relativeRedirectEnv.installerUrlInput) (tmpExe relativeRedirectEnv)
      = ([.httpsGet "https://jrsoftware.org/download.php/is.exe?site=1",
          .httpsGet "/files/is.exe"], .crashed ⟨"Invalid URL", none, none⟩) := by
    rw [downloadFile,
      getUrl_redirect relativeRedirectEnv.http _ _
        (installerUrl relativeRedirectEnv.installerUrlInput) 0 ⟨302, some "/files/is.exe"⟩
        (by decide) rfl rfl,
      getUrl_thrown_later relativeRedirectEnv.http _ _
        ((⟨302, some "/files/is.exe"⟩ : HttpResponse).location.getD "") 0
        ⟨"Invalid URL", none, none⟩ (by decide) rfl]
    rfl
  have hrun := run_download_crash relativeRedirectEnv _ _ (by decide) (by decide) hd
  refine ⟨by decide, rfl, rfl, hrun, ?_, ?_⟩
  · rw [hrun]
    decide
  · intro msg hmem
    rw [hrun] at hmem
    simp at hmem

/-- The fallback of lines 132-145, for a failure that reaches the `catch` of
line 132: with install-latest requested, when the download promise rejects or
the downloaded installer fails, the install stage warns with the reason and
runs `choco install innosetup -y` exactly once.  If that succeeds the stage
succeeds and, after a successful validation, the run goes on to the
discovery; if it fails the stage fails with `Failed to install Inno Setup: `
followed by the package manager's error stream (its error message when the
stream is empty), which is the failure message of the run. -/
theorem install_falls_back_on_rejection (e : Env) (err : JsError)
    (hl : installLatest e.installLatestInput = true)
    (hd : (downloadFile e.http e.pipe (installerUrl e.installerUrlInput) (tmpExe e)).2
        = .error err ∨
      ((downloadFile e.http e.pipe (installerUrl e.installerUrlInput) (tmpExe e)).2 = .ok () ∧
        e.execFile (tmpExe e) silentFlags = .error err)) :
    (install e).1.count (Event.exec chocoCommand) = 1 ∧
    Event.warning ("Download/install failed: " ++ err.message ++ ". Falling back to Chocolatey.")
      ∈ (install e).1 ∧
    (∀ out, e.exec chocoCommand = .ok out →
      (install e).2 = .ok () ∧
      (validated e = true → ∃ rest, run e = beforeCompile e ++ rest)) ∧
    (∀ err2, e.exec chocoCommand = .error err2 →
      (install e).2 = .error (JsError.ofMessage
        ("Failed to install Inno Setup: " ++ orElse err2.stderr err2.message)) ∧
      (validated e = true →
        run e =
          .fsAccess (e.workspacePath.getD "") :: .fsReaddir (e.workspacePath.getD "")
            :: (install e).1 ++
            [.setFailed ("Failed to install Inno Setup: " ++ orElse err2.stderr err2.message),
             .processExit 1])) := by
  have ha := downloadAndInstall_error e err hd
  have hinst := install_fallback e err hl ha
  have hzero : (downloadAndInstall e).1.count (Event.exec chocoCommand) = 0 :=
    List.count_eq_zero.mpr (downloadAndInstall_no_choco e)
  refine ⟨?_, ?_, ?_, ?_⟩
  · rw [hinst]
    simp only [List.count_append, hzero, Nat.zero_add]
    cases hx : e.exec chocoCommand with
    | ok out =>
      rw [chocoInstall_ok e out hx]
      simp [List.count_cons]
    | error err2 =>
      rw [chocoInstall_error e err2 hx]
      simp [List.count_cons]
  · rw [hinst]
    simp
  · intro out hx
    have hok : (install e).2 = .ok () := by rw [hinst, chocoInstall_ok e out hx]
    exact ⟨hok, fun hv => run_reaches_discovery e hv hok⟩
  · intro err2 hx
    have herr : (install e).2 = .error (JsError.ofMessage
        ("Failed to install Inno Setup: " ++ orElse err2.stderr err2.message)) := by
      rw [hinst, chocoInstall_error e err2 hx]
    exact ⟨herr, fun hv =>
      run_install_error e _ (append_ne_empty _ _ (by decide)) hv herr⟩

/-- Two instances of the fallback, both with the download answered 404: when
the package manager fails too, it was run once and the stage fails with its
error stream `Access denied`; when it succeeds, the stage succeeds. -/
theorem install_falls_back_on_rejection_instances :
    (install latestBothFailEnv).1.count (Event.exec chocoCommand) = 1 ∧
      (install latestBothFailEnv).2
        = .error (JsError.ofMessage "Failed to install Inno Setup: Access denied") ∧
      (install latestNotFoundEnv).2 = .ok () :=
  have hd : ∀ e : Env, e.http = (fun _ _ => .response ⟨404, none⟩) →
      (downloadFile e.http e.pipe (installerUrl e.installerUrlInput) (tmpExe e)).2
        = .error (JsError.ofMessage "Download failed with status 404") := by
    intro e he
    rw [downloadFile, getUrl_final e.http e.pipe _ _ 0 ⟨404, none⟩ (by decide) (by rw [he]) rfl]
    rfl
  ⟨(install_falls_back_on_rejection latestBothFailEnv _ (by decide) (Or.inl (hd _ rfl))).1,
   ((install_falls_back_on_rejection latestBothFailEnv _ (by decide) (Or.inl (hd _ rfl))).2.2.2
      ⟨"Command failed: choco install innosetup -y", some "", some "Access denied"⟩ rfl).1,
   ((install_falls_back_on_rejection latestNotFoundEnv _ (by decide) (Or.inl (hd _ rfl))).2.2.1
      ⟨"", ""⟩ rfl).1⟩

/-- C4, refuted at a package manager that fails with an empty error stream:
the failure message is then built from the error message of the failed
command, not from the (empty) error stream. -/
theorem choco_failure_with_empty_stderr :
    installLatest chocoFailureEnv.installLatestInput = false ∧
      chocoFailureEnv.exec chocoCommand
        = .error ⟨"Command failed: choco install innosetup -y", some "innosetup not installed",
            some ""⟩ ∧
      run chocoFailureEnv =
        [.fsAccess "D:/a/repo", .fsReaddir "D:/a/repo",
         .info "Installing Inno Setup via choco…", .exec "choco install innosetup -y",
         .setFailed "Failed to install Inno Setup: Command failed: choco install innosetup -y",
         .processExit 1] ∧
      Event.setFailed ("Failed to install Inno Setup: " ++ "") ∉ run chocoFailureEnv :=
  ⟨by decide, rfl, by decide, by decide⟩

/-- C4 as amended: when the `install_latest` input is empty or does not
lower-case to `true`, the install stage is the package-manager install alone
(its events are log lines and `choco install innosetup -y`), no run performs a
download request or opens a download file, and after a successful validation a
failing package manager ends the run with `Failed to install Inno Setup: `
followed by its error stream when that is non-empty and by its error message
otherwise. -/
theorem install_without_latest (e : Env)
    (hl : e.installLatestInput = "" ∨ toLowerCase e.installLatestInput ≠ "true") :
    install e = chocoInstall e ∧
    (∀ ev ∈ (install e).1, (∃ m, ev = Event.info m) ∨ ev = Event.exec chocoCommand) ∧
    (∀ ev ∈ run e, isDownloadEvent ev = false) ∧
    (validated e = true → ∀ err, e.exec chocoCommand = .error err →
      run e =
        [.fsAccess (e.workspacePath.getD ""), .fsReaddir (e.workspacePath.getD ""),
         .info "Installing Inno Setup via choco…", .exec chocoCommand,
         .setFailed ("Failed to install Inno Setup: " ++ orElse err.stderr err.message),
         .processExit 1]) := by
  have hflag := installLatest_false e.installLatestInput hl
  have hinst := install_of_flag_false e hflag
  refine ⟨hinst, ?_, run_no_download e hflag, ?_⟩
  · rw [hinst]
    exact chocoInstall_trace e
  · intro hv err hx
    have herr : (install e).2 = .error (JsError.ofMessage
        ("Failed to install Inno Setup: " ++ orElse err.stderr err.message)) := by
      rw [hinst, chocoInstall_error e err hx]
    rw [run_install_error e _ (append_ne_empty _ _ (by decide)) hv herr, hinst,
      chocoInstall_error e err hx]
    rfl

/-- An instance of amended C4: `install_latest` is `false` and the package
manager fails with `Access denied` on its error stream. -/
theorem install_without_latest_witness :
    run { chocoStderrEnv with installLatestInput := "false" } =
      [.fsAccess "D:/a/repo", .fsReaddir "D:/a/repo",
       .info "Installing Inno Setup via choco…", .exec "choco install innosetup -y",
       .setFailed "Failed to install Inno Setup: Access denied", .processExit 1] :=
  (install_without_latest { chocoStderrEnv with installLatestInput := "false" }
    (Or.inr (by decide))).2.2.2 (by decide)
    ⟨"Command failed: choco install innosetup -y", some "", some "Access denied"⟩ rfl

/-- C9, refuted at a response with status 204: the first response is not a
redirect and its status lies in the 200 range, yet the download is rejected
with `Download failed with status 204`. -/
theorem downloadFile_rejects_204 :
    requestedUrl noContent "https://host/is.exe" 0 = some "https://host/is.exe" ∧
      noContent 0 "https://host/is.exe" = .response ⟨204, none⟩ ∧
      isRedirect ⟨204, none⟩ = false ∧ inSuccessRange 204 = true ∧
      (downloadFile noContent (fun _ => .ok ()) "https://host/is.exe" "C:/Temp/is.exe").2
        = .error (JsError.ofMessage "Download failed with status 204") := by
  refine ⟨rfl, rfl, rfl, rfl, ?_⟩
  rw [downloadFile, getUrl_final noContent _ _ _ 0 ⟨204, none⟩ (by decide) rfl rfl]
  rfl

/-- C9 as amended: `downloadFile` is total and issues at most six requests,
so it follows at most five redirects.  It resolves exactly when the response
reached after some `k ≤ 5` redirects is not a redirect and has status exactly
200 and the body was written; it rejects with the too-many-redirects message
when a sixth redirect is received; it rejects with `Download failed with
status <code>` when a response reached after `k ≤ 5` redirects is not a
redirect and has a status other than 200. -/
theorem downloadFile_follows_five_redirects (http : Nat → String → HttpOutcome)
    (pipe : String → Except JsError Unit) (url dest : String) :
    (downloadFile http pipe url dest).1.countP isRequest ≤ maxRedirects + 1 ∧
    ((downloadFile http pipe url dest).2 = .ok () ↔
      ∃ k u res, k ≤ maxRedirects ∧ requestedUrl http url k = some u ∧
        http k u = .response res ∧ isRedirect res = false ∧ res.statusCode = 200 ∧
        pipe dest = .ok ()) ∧
    ((∃ u, requestedUrl http url (maxRedirects + 1) = some u) →
      (downloadFile http pipe url dest).2
        = .error (JsError.ofMessage "Too many redirects while downloading installer")) ∧
    (∀ k u res, k ≤ maxRedirects → requestedUrl http url k = some u →
      http k u = .response res → isRedirect res = false → res.statusCode ≠ 200 →
      (downloadFile http pipe url dest).2
        = .error (JsError.ofMessage
            ("Download failed with status " ++ toString res.statusCode))) := by
  refine ⟨?_, ⟨?_, ?_⟩, ?_, ?_⟩
  · exact getUrl_requests http pipe dest (maxRedirects + 1) url 0 (by omega)
  · intro hok
    rcases downloadFile_settles http pipe url dest hok (maxRedirects + 1) (le_refl _) with
      ⟨j, u, res, hj, h⟩ | ⟨u, hu⟩
    · exact ⟨j, u, res, by omega, h⟩
    · have hres := downloadFile_result_at http pipe url dest _ u (le_refl _) hu
      rw [hok, getUrl_exhausted http pipe dest u _ (by omega)] at hres
      simp at hres
  · rintro ⟨k, u, res, hk, hu, hh, hred, hs, hp⟩
    rw [downloadFile_result_at http pipe url dest k u (by omega) hu,
      getUrl_final http pipe dest u k res hk hh hred]
    simp [hs, hp]
  · rintro ⟨u, hu⟩
    rw [downloadFile_result_at http pipe url dest _ u (le_refl _) hu,
      getUrl_exhausted http pipe dest u _ (by omega)]
  · intro k u res hk hu hh hred hs
    rw [downloadFile_result_at http pipe url dest k u (by omega) hu,
      getUrl_final http pipe dest u k res hk hh hred]
    simp [hs]

/-- An instance of amended C9: two redirects and then a 200 resolve. -/
theorem downloadFile_follows_five_redirects_witness :
    (downloadFile redirectTwice (fun _ => .ok ()) "https://host/is.exe" "C:/Temp/is.exe").2
      = .ok () :=
  (downloadFile_follows_five_redirects redirectTwice (fun _ => .ok ()) "https://host/is.exe"
    "C:/Temp/is.exe").2.1.mpr
    ⟨2, "https://mirror/is.exe", ⟨200, none⟩, by decide, rfl, rfl, rfl, rfl, rfl⟩

end InnoSetupAction
